import Mathlib

/-!
Verification development for the pcp parallel file copier.

The program copies one regular file to another: pcopy opens the source
read-only, checks it is a regular file, creates/opens the destination with
the source's permission bits, truncates it to the source size, splits the
byte range [0, srcSize) into page-aligned chunks (one per worker thread),
and copies each chunk either by memory mapping both files (mcopy) or with
the copy_file_range syscall (fcopy).

The definitions below are a shallow embedding of that code: files are
finite byte sequences modelled as a size plus a byte function, the chunk
plan is the list of (start, end) offsets produced by pcopy's loop, and the
chunk copies are modelled as pure state transformers together with a trace
of the file operations (each carrying the access mode taken from the
actual syscall flags in the code).
-/

set_option maxRecDepth 100000

namespace Pcp

/-- Half-open byte range [start, stop) handed to one copy goroutine.
Mirrors the startOffset/endOffset pair in pcopy's dispatch loop. -/
structure Chunk where
  start : Nat
  stop : Nat
deriving DecidableEq, Repr

/-- Model of an open file: regular-file flag, permission bits, size and
byte contents (data i is the byte at offset i; offsets at or beyond size
are irrelevant and read as 0 after a truncation). -/
structure SimFile where
  isRegular : Bool
  perm : Nat
  size : Nat
  data : Nat → Nat

/-- The package-level mutable variables of the program: threads (worker
count) and fsync (PCP_SYNC flag), both resolved before pcopy runs. -/
structure Globals where
  threads : Nat
  fsync : Bool
deriving DecidableEq, Repr

/-- Errors the modelled run can surface. notRegular is the
"pcp only works on regular files" error; mmapInval is the EINVAL that
unix.Mmap returns for a length of 0, which mcopy turns into a fatal log
message. -/
inductive PErr where
  | notRegular
  | mmapInval
deriving DecidableEq, Repr

/-- Access mode of one file operation: read-only or read-write. -/
inductive Mode where
  | r
  | rw
deriving DecidableEq, Repr

/-- One file operation performed by the run, tagged with the arguments
relevant to the claims. Each constructor corresponds to one call site in
the Go code. -/
inductive FileOp where
  | openReadOnly                       -- os.OpenFile(source, O_RDONLY, 0644)
  | statFile                           -- src.Stat()
  | openCreateReadWrite (perm : Nat)   -- os.OpenFile(destination, O_RDWR|O_CREATE, srcMode)
  | truncate (n : Nat)                 -- dst.Truncate(srcSize)
  | mmapRead (c : Chunk)               -- unix.Mmap(src.Fd(), PROT_READ, MAP_SHARED)
  | mmapReadWrite (c : Chunk)          -- unix.Mmap(dst.Fd(), PROT_READ|PROT_WRITE, MAP_SHARED)
  | madviseSeq (c : Chunk)             -- unix.Madvise(_, MADV_SEQUENTIAL)
  | readMapped (c : Chunk)             -- the read side of copy(d, s)
  | memcopy (c : Chunk)                -- the write side of copy(d, s)
  | msync (c : Chunk)                  -- unix.Msync(d, MS_SYNC)
  | munmap (c : Chunk)                 -- unix.Munmap
  | copyFileRangeSrc (off len : Nat)   -- unix.CopyFileRange, source side (kernel read)
  | copyFileRangeDst (off len : Nat)   -- unix.CopyFileRange, destination side (kernel write)
  | closeFile                          -- File.Close()
deriving DecidableEq, Repr

/-- Access mode of each operation, read off the flags at its call site:
the source is only ever opened O_RDONLY, mapped PROT_READ or read by the
kernel; only destination-side operations carry write capability. -/
def FileOp.mode : FileOp → Mode
  | .openReadOnly => .r
  | .statFile => .r
  | .openCreateReadWrite _ => .rw
  | .truncate _ => .rw
  | .mmapRead _ => .r
  | .mmapReadWrite _ => .rw
  | .madviseSeq _ => .r
  | .readMapped _ => .r
  | .memcopy _ => .rw
  | .msync _ => .rw
  | .munmap _ => .r
  | .copyFileRangeSrc _ _ => .r
  | .copyFileRangeDst _ _ => .rw
  | .closeFile => .r

/-- Semantics of one operation on a file, parametric in an arbitrary
interpretation w of the write-capable operations: a read-mode operation
cannot change the file, a write-mode operation may. -/
def applyOp (w : FileOp → SimFile → SimFile) (f : SimFile) (op : FileOp) : SimFile :=
  match op.mode with
  | .r => f
  | .rw => w op f

/-- Translation of align: page-align a size downwards,
(size / pageSize) * pageSize. -/
def align (pageSize size : Nat) : Nat :=
  size / pageSize * pageSize

/-- The chunk handed to goroutine i by pcopy's dispatch loop: start is
i * chunkSize; the end offset is (i+1) * chunkSize except that the last
iteration (i = workers - 1) sets it to srcSize. -/
def planChunk (chunkSize srcSize workers i : Nat) : Chunk :=
  ⟨i * chunkSize, if i = workers - 1 then srcSize else (i + 1) * chunkSize⟩

/-- The full chunk plan of pcopy's loop for the given (already effective)
worker count: chunk size align(srcSize / workers), one chunk per worker. -/
def plan (pageSize srcSize workers : Nat) : List Chunk :=
  (List.range workers).map (planChunk (align pageSize (srcSize / workers)) srcSize workers)

/-- The small-file rule of pcopy: if srcSize < 256 * pageSize the global
worker count is overwritten with 1, otherwise the globals are untouched. -/
def effGlobals (pageSize srcSize : Nat) (g : Globals) : Globals :=
  if srcSize < 256 * pageSize then { g with threads := 1 } else g

/-- Byte contents after writing src[start..stop) over dst[start..stop),
the effect of copy(d, s) between the two mapped views of a chunk. -/
def writeRange (dst src : Nat → Nat) (start stop : Nat) : Nat → Nat :=
  fun i => if start ≤ i ∧ i < stop then src i else dst i

/-- Effect of dst.Truncate(n): size becomes n, bytes below the old size
are kept, bytes gained by extension read as zero. -/
def truncFile (f : SimFile) (n : Nat) : SimFile :=
  { f with size := n, data := fun i => if i < f.size ∧ i < n then f.data i else 0 }

/-- Outcome of one mcopy goroutine. completed is a normal return;
fatalExit is any log.Fatalln path, which terminates the whole process
with exit status 1. chunkFaultError and signalCrash are the two outcomes
the code never produces: returning the fault as a per-chunk error value,
and being killed by the raw SIGBUS/SEGV signal (prevented by
debug.SetPanicOnFault plus the deferred recover). -/
inductive McopyOutcome where
  | completed (dstData : Nat → Nat)
  | fatalExit
  | chunkFaultError (c : Chunk)
  | signalCrash

/-- Translation of mcopy for chunk c. A zero-length chunk makes
unix.Mmap return EINVAL, hitting log.Fatalln. The fault flag models a
memory access fault (SIGBUS) during copy(d, s): SetPanicOnFault turns it
into a panic, the deferred recover catches it, and the handler calls
log.Fatalln(e), terminating the process. Otherwise the chunk bytes are
copied and the goroutine returns. -/
def mcopy (fault : Bool) (srcData dstData : Nat → Nat) (c : Chunk) : McopyOutcome :=
  if c.stop - c.start = 0 then .fatalExit
  else if fault then .fatalExit
  else .completed (writeRange dstData srcData c.start c.stop)

/-- Source-side operations of one fault-free mcopy run: map the source
chunk PROT_READ, madvise it, read it through the view, unmap it. -/
def mcopySrcOps (c : Chunk) : List FileOp :=
  [.mmapRead c, .madviseSeq c, .readMapped c, .munmap c]

/-- Destination-side operations of one fault-free mcopy run: map the
chunk PROT_READ|PROT_WRITE, madvise, write through the view, optionally
msync when the fsync flag is set, unmap. -/
def mcopyDstOps (fsync : Bool) (c : Chunk) : List FileOp :=
  [.mmapReadWrite c, .madviseSeq c, .memcopy c]
    ++ (if fsync then [.msync c] else []) ++ [.munmap c]

/-- Aggregate result of executing the dispatched chunk copies: first
fatal error if any, the destination bytes, and the operation traces on
source and destination. -/
structure ChunksResult where
  err : Option PErr
  dstData : Nat → Nat
  strace : List FileOp
  dtrace : List FileOp

/-- Executes the chunk goroutines of one run. The chunks write disjoint
ranges, so the sequential order here yields the same bytes as the
concurrent execution; a fatal mcopy outcome (with no injected fault this
is exactly the zero-length-chunk Mmap EINVAL) ends the run as the
process exit does. -/
def runChunks (srcData : Nat → Nat) (fsync : Bool) : List Chunk → (Nat → Nat) → ChunksResult
  | [], d => ⟨none, d, [], []⟩
  | c :: cs, d =>
    match mcopy false srcData d c with
    | .completed d1 =>
      let r := runChunks srcData fsync cs d1
      ⟨r.err, r.dstData, mcopySrcOps c ++ r.strace, mcopyDstOps fsync c ++ r.dtrace⟩
    | _ => ⟨some .mmapInval, d, [.mmapRead c], []⟩

/-- Final outcome of a pcopy run: success with the destination file, or
a failure together with the destination state at that point (none when
the destination was never created). -/
inductive RunOutcome where
  | success (dst : SimFile)
  | failure (e : PErr) (dst : Option SimFile)

/-- True exactly on the success outcome. -/
def RunOutcome.isSuccess : RunOutcome → Bool
  | .success _ => true
  | .failure _ _ => false

/-- The destination file carried by the outcome, if any. -/
def RunOutcome.dstFile? : RunOutcome → Option SimFile
  | .success d => some d
  | .failure _ d => d

/-- Size of the outcome's destination file, if present. -/
def RunOutcome.dstSize? (o : RunOutcome) : Option Nat :=
  o.dstFile?.map SimFile.size

/-- Permission bits of the outcome's destination file, if present. -/
def RunOutcome.dstPerm? (o : RunOutcome) : Option Nat :=
  o.dstFile?.map SimFile.perm

/-- Byte i of the outcome's destination file, if present. -/
def RunOutcome.dstByte? (o : RunOutcome) (i : Nat) : Option Nat :=
  o.dstFile?.map fun f => f.data i

/-- Everything a pcopy run produces: the outcome, the final values of the
package globals, the list of chunks dispatched to goroutines, and the
operation traces touching source and destination. -/
structure RunResult where
  outcome : RunOutcome
  globals : Globals
  spawned : List Chunk
  srcTrace : List FileOp
  dstTrace : List FileOp

/-- The main copy branch of pcopy (a regular, non-empty source): the
destination dst1 is truncated to the source size, the small-file rule
may overwrite the global worker count, the chunk plan is built from the
resulting thread count and the chunk goroutines run; success closes the
destination, while a fatal chunk outcome ends the process before the
deferred closes run. -/
def pcopyMain (pageSize : Nat) (g : Globals) (src : SimFile) (dst1 : SimFile) : RunResult :=
  let dst2 := truncFile dst1 src.size
  let g1 := effGlobals pageSize src.size g
  let chunks := plan pageSize src.size g1.threads
  let r := runChunks src.data g.fsync chunks dst2.data
  { outcome :=
      match r.err with
      | some e => .failure e (some { dst2 with data := r.dstData })
      | none => .success { dst2 with data := r.dstData },
    globals := g1, spawned := chunks,
    srcTrace := [.openReadOnly, .statFile] ++ r.strace
      ++ (match r.err with | some _ => [] | none => [.closeFile]),
    dstTrace := [.openCreateReadWrite src.perm, .truncate src.size] ++ r.dtrace
      ++ (match r.err with | some _ => [] | none => [.closeFile]) }

/-- Translation of pcopy. dst0 is the pre-existing destination file, if
any: O_RDWR|O_CREATE creates a fresh empty file with the source's
permission bits only when none exists. The source is opened read-only
and stat'ed; a non-regular source returns the error before the
destination is ever opened. A zero-size source closes the destination
immediately with success. Otherwise the main copy branch runs. -/
def pcopy (pageSize : Nat) (g : Globals) (src : SimFile) (dst0 : Option SimFile) : RunResult :=
  if src.isRegular = false then
    { outcome := .failure .notRegular dst0, globals := g, spawned := [],
      srcTrace := [.openReadOnly, .statFile, .closeFile], dstTrace := [] }
  else
    let dst1 : SimFile :=
      match dst0 with
      | none => { isRegular := true, perm := src.perm, size := 0, data := fun _ => 0 }
      | some d => d
    if src.size = 0 then
      { outcome := .success dst1, globals := g, spawned := [],
        srcTrace := [.openReadOnly, .statFile, .closeFile],
        dstTrace := [.openCreateReadWrite src.perm, .closeFile] }
    else
      pcopyMain pageSize g src dst1

/-- One response of the kernel to a unix.CopyFileRange call: either the
call was interrupted (EINTR, nothing copied, offsets unchanged) or it
transferred n bytes and advanced the offset variable by n. -/
inductive CfrResp where
  | eintr
  | ok (n : Nat)
deriving DecidableEq, Repr

/-- Loop state of fcopy: the shared offset variable start (passed as both
the read and the write offset pointer, so the kernel advances it by the
transferred count), the written and remain counters, the destination
bytes, and the trace of source-side syscalls made so far. -/
structure FcState where
  start : Nat
  written : Nat
  remain : Nat
  dstData : Nat → Nat
  strace : List FileOp

/-- Result of running fcopy's loop: success (remain reached 0 and the
written total equals the chunk length), the Short write fatal error,
or starvation of the response oracle while the loop still wants data. -/
inductive FcResult where
  | success (st : FcState)
  | shortWrite (st : FcState)
  | starved (st : FcState)

/-- The checks after fcopy's outer loop: log.Fatalln("Short write")
unless the written total equals the chunk length. -/
def fcopyExit (len : Nat) (st : FcState) : FcResult :=
  if st.written = len then .success st else .shortWrite st

/-- Translation of fcopy's loop for the chunk ending at e with length
len = end - start. Each consumed response is one CopyFileRange call
requesting e - start bytes at offset start; an EINTR response leaves the
state unchanged (the inner for retries at once), an ok n response copies
src[start..start+n) to the destination at the same offsets and advances
start while written grows and remain shrinks by n. The loop exits as
soon as remain is 0. -/
def fcopyRun (srcData : Nat → Nat) (e len : Nat) : List CfrResp → FcState → FcResult
  | [], st =>
    if st.remain = 0 then fcopyExit len st else .starved st
  | .eintr :: rest, st =>
    if st.remain = 0 then fcopyExit len st
    else fcopyRun srcData e len rest
      { st with strace := st.strace ++ [.copyFileRangeSrc st.start (e - st.start)] }
  | .ok n :: rest, st =>
    if st.remain = 0 then fcopyExit len st
    else fcopyRun srcData e len rest
      { start := st.start + n, written := st.written + n, remain := st.remain - n,
        dstData := writeRange st.dstData srcData st.start (st.start + n),
        strace := st.strace ++ [.copyFileRangeSrc st.start (e - st.start)] }

/-- A response list is valid for a remaining length when every
transferred count is at most what the matching call requested (the
kernel never copies more than asked; the request is always the remaining
length because the offset variable advances with each transfer). -/
def validResps : List CfrResp → Nat → Bool
  | [], _ => true
  | .eintr :: rest, r => validResps rest r
  | .ok n :: rest, r => decide (n ≤ r) && validResps rest (r - n)

/-- The loop state carried by an fcopy result, whatever the outcome. -/
def FcResult.state : FcResult → FcState
  | .success st => st
  | .shortWrite st => st
  | .starved st => st

/-! ### Lemmas about the chunk planner -/

theorem plan_length (P S W : Nat) : (plan P S W).length = W := by
  simp [plan]

theorem plan_getElem (P S W i : Nat) (h : i < (plan P S W).length) :
    (plan P S W)[i] = planChunk (align P (S / W)) S W i := by
  simp [plan]

theorem align_le (P x : Nat) : align P x ≤ x :=
  Nat.div_mul_le_self x P

theorem dvd_align (P x : Nat) : P ∣ align P x :=
  ⟨x / P, Nat.mul_comm (x / P) P⟩

theorem mul_align_le (P S W : Nat) : W * align P (S / W) ≤ S :=
  calc W * align P (S / W) ≤ W * (S / W) :=
        Nat.mul_le_mul_left W (align_le P (S / W))
    _ = S / W * W := Nat.mul_comm W (S / W)
    _ ≤ S := Nat.div_mul_le_self S W

theorem plan_cover (P S W x : Nat) (hW : 1 ≤ W) (hx : x < S) :
    ∃ i, i < W ∧ (planChunk (align P (S / W)) S W i).start ≤ x
      ∧ x < (planChunk (align P (S / W)) S W i).stop := by
  by_cases h0 : align P (S / W) = 0
  · refine ⟨W - 1, by omega, ?_, ?_⟩
    · simp [planChunk, h0]
    · simp [planChunk]
      exact hx
  · have hcpos : 0 < align P (S / W) := Nat.pos_of_ne_zero h0
    by_cases hbig : x < (W - 1) * align P (S / W)
    · have hidx : x / align P (S / W) < W - 1 :=
        (Nat.div_lt_iff_lt_mul hcpos).2 hbig
      refine ⟨x / align P (S / W), by omega, ?_, ?_⟩
      · simpa [planChunk] using Nat.div_mul_le_self x (align P (S / W))
      · have hne : x / align P (S / W) ≠ W - 1 := by omega
        simp only [planChunk, if_neg hne]
        exact (Nat.div_lt_iff_lt_mul hcpos).1 (Nat.lt_succ_self _)
    · refine ⟨W - 1, by omega, ?_, ?_⟩
      · simpa [planChunk] using Nat.le_of_not_lt hbig
      · simp [planChunk]
        exact hx

theorem plan_chunk_pos (P S W : Nat) (hS : 0 < S) (hW : 1 ≤ W)
    (hdeg : W = 1 ∨ 0 < align P (S / W)) :
    ∀ c ∈ plan P S W, 0 < c.stop - c.start := by
  intro ch hm
  rw [plan, List.mem_map] at hm
  obtain ⟨i, hi, rfl⟩ := hm
  rw [List.mem_range] at hi
  by_cases hlast : i = W - 1
  · subst hlast
    simp only [planChunk, if_pos rfl]
    rcases hdeg with h1 | hc
    · subst h1
      simpa using hS
    · have h2 : (W - 1) * align P (S / W) < W * align P (S / W) :=
        Nat.mul_lt_mul_of_lt_of_le (by omega) (Nat.le_refl _) hc
      exact Nat.sub_pos_of_lt (Nat.lt_of_lt_of_le h2 (mul_align_le P S W))
  · have hi2 : i < W - 1 := by omega
    have hc : 0 < align P (S / W) := by
      rcases hdeg with h1 | hc
      · omega
      · exact hc
    simp only [planChunk, if_neg hlast]
    rw [Nat.succ_mul, Nat.add_sub_cancel_left]
    exact hc

/-! ### Lemmas about the chunk execution -/

theorem runChunks_cons_pos (s : Nat → Nat) (b : Bool) (c : Chunk) (cs : List Chunk)
    (d : Nat → Nat) (hc : 0 < c.stop - c.start) :
    runChunks s b (c :: cs) d =
      ⟨(runChunks s b cs (writeRange d s c.start c.stop)).err,
       (runChunks s b cs (writeRange d s c.start c.stop)).dstData,
       mcopySrcOps c ++ (runChunks s b cs (writeRange d s c.start c.stop)).strace,
       mcopyDstOps b c ++ (runChunks s b cs (writeRange d s c.start c.stop)).dtrace⟩ := by
  have h0 : ¬ c.stop - c.start = 0 := by omega
  simp [runChunks, mcopy, h0]

theorem runChunks_cons_zero (s : Nat → Nat) (b : Bool) (c : Chunk) (cs : List Chunk)
    (d : Nat → Nat) (hc : c.stop - c.start = 0) :
    runChunks s b (c :: cs) d = ⟨some .mmapInval, d, [.mmapRead c], []⟩ := by
  simp [runChunks, mcopy, hc]

theorem runChunks_err_none (s : Nat → Nat) (b : Bool) :
    ∀ (cs : List Chunk) (d : Nat → Nat), (∀ c ∈ cs, 0 < c.stop - c.start) →
      (runChunks s b cs d).err = none := by
  intro cs
  induction cs with
  | nil => intro d _; rfl
  | cons c cs ih =>
    intro d h
    rw [runChunks_cons_pos s b c cs d (h c (by simp))]
    exact ih _ (fun x hx => h x (by simp [hx]))

theorem runChunks_frame (s : Nat → Nat) (b : Bool) :
    ∀ (cs : List Chunk) (d : Nat → Nat) (x : Nat),
      (∀ c ∈ cs, ¬ (c.start ≤ x ∧ x < c.stop)) →
      (runChunks s b cs d).dstData x = d x := by
  intro cs
  induction cs with
  | nil => intro d x _; rfl
  | cons c cs ih =>
    intro d x h
    by_cases hc : c.stop - c.start = 0
    · rw [runChunks_cons_zero s b c cs d hc]
    · rw [runChunks_cons_pos s b c cs d (by omega)]
      have hrec := ih (writeRange d s c.start c.stop) x (fun y hy => h y (by simp [hy]))
      refine hrec.trans ?_
      have hcx : ¬ (c.start ≤ x ∧ x < c.stop) := h c (by simp)
      simp only [writeRange, if_neg hcx]

theorem runChunks_covered (s : Nat → Nat) (b : Bool) :
    ∀ (cs : List Chunk) (d : Nat → Nat) (x : Nat),
      (∀ c ∈ cs, 0 < c.stop - c.start) →
      (∃ c ∈ cs, c.start ≤ x ∧ x < c.stop) →
      (runChunks s b cs d).dstData x = s x := by
  intro cs
  induction cs with
  | nil =>
    intro d x _ hex
    simp at hex
  | cons c cs ih =>
    intro d x hpos hex
    rw [runChunks_cons_pos s b c cs d (hpos c (by simp))]
    by_cases hcs : ∃ c2 ∈ cs, c2.start ≤ x ∧ x < c2.stop
    · exact ih _ x (fun y hy => hpos y (by simp [hy])) hcs
    · have hcx : c.start ≤ x ∧ x < c.stop := by
        rcases hex with ⟨c2, hc2, hx2⟩
        rcases List.mem_cons.1 hc2 with rfl | hmem
        · exact hx2
        · exact absurd ⟨c2, hmem, hx2⟩ hcs
      have hrec := runChunks_frame s b cs (writeRange d s c.start c.stop) x
        (fun y hy hxy => hcs ⟨y, hy, hxy⟩)
      refine hrec.trans ?_
      simp only [writeRange, if_pos hcx]

theorem mcopySrcOps_r (c : Chunk) : ∀ op ∈ mcopySrcOps c, op.mode = Mode.r := by
  intro op hop
  rcases (by simpa [mcopySrcOps] using hop :
      op = FileOp.mmapRead c ∨ op = FileOp.madviseSeq c
        ∨ op = FileOp.readMapped c ∨ op = FileOp.munmap c) with rfl | rfl | rfl | rfl <;> rfl

theorem runChunks_strace_r (s : Nat → Nat) (b : Bool) :
    ∀ (cs : List Chunk) (d : Nat → Nat), ∀ op ∈ (runChunks s b cs d).strace,
      op.mode = Mode.r := by
  intro cs
  induction cs with
  | nil =>
    intro d op hop
    simp [runChunks] at hop
  | cons c cs ih =>
    intro d op hop
    by_cases hc : c.stop - c.start = 0
    · rw [runChunks_cons_zero s b c cs d hc] at hop
      rcases (by simpa using hop : op = FileOp.mmapRead c) with rfl
      rfl
    · rw [runChunks_cons_pos s b c cs d (by omega)] at hop
      rcases List.mem_append.1 hop with hmem | hmem
      · exact mcopySrcOps_r c op hmem
      · exact ih _ op hmem

theorem foldl_applyOp_r (w : FileOp → SimFile → SimFile) :
    ∀ (t : List FileOp) (f : SimFile), (∀ op ∈ t, op.mode = Mode.r) →
      List.foldl (applyOp w) f t = f := by
  intro t
  induction t with
  | nil => intro f _; rfl
  | cons op t ih =>
    intro f h
    have hop : op.mode = Mode.r := h op (by simp)
    rw [List.foldl_cons]
    have hstep : applyOp w f op = f := by
      simp [applyOp, hop]
    rw [hstep]
    exact ih f (fun y hy => h y (by simp [hy]))

/-! ### Unfolding lemmas for pcopy -/

theorem effGlobals_threads (P S : Nat) (g : Globals) :
    (effGlobals P S g).threads = if S < 256 * P then 1 else g.threads := by
  rw [effGlobals]
  split <;> rfl

theorem effGlobals_fsync (P S : Nat) (g : Globals) :
    (effGlobals P S g).fsync = g.fsync := by
  rw [effGlobals]
  split <;> rfl

theorem effGlobals_pos (P S : Nat) (g : Globals) (hW : 1 ≤ g.threads) :
    1 ≤ (effGlobals P S g).threads := by
  rw [effGlobals_threads]
  split <;> omega

theorem pcopy_notRegular (P : Nat) (g : Globals) (src : SimFile) (dst0 : Option SimFile)
    (hreg : src.isRegular = false) :
    pcopy P g src dst0 =
      { outcome := .failure .notRegular dst0, globals := g, spawned := [],
        srcTrace := [.openReadOnly, .statFile, .closeFile], dstTrace := [] } := by
  simp [pcopy, hreg]

theorem pcopy_zero_none (P : Nat) (g : Globals) (src : SimFile)
    (hreg : src.isRegular = true) (hsz : src.size = 0) :
    pcopy P g src none =
      { outcome := .success { isRegular := true, perm := src.perm, size := 0, data := fun _ => 0 },
        globals := g, spawned := [],
        srcTrace := [.openReadOnly, .statFile, .closeFile],
        dstTrace := [.openCreateReadWrite src.perm, .closeFile] } := by
  simp [pcopy, hreg, hsz]

theorem pcopy_main_none (P : Nat) (g : Globals) (src : SimFile)
    (hreg : src.isRegular = true) (hsz : src.size ≠ 0) :
    pcopy P g src none =
      pcopyMain P g src { isRegular := true, perm := src.perm, size := 0, data := fun _ => 0 } := by
  simp [pcopy, hreg, hsz]

theorem pcopyMain_globals (P : Nat) (g : Globals) (src : SimFile) (dst1 : SimFile) :
    (pcopyMain P g src dst1).globals = effGlobals P src.size g := by
  simp [pcopyMain]

theorem pcopyMain_spawned (P : Nat) (g : Globals) (src : SimFile) (dst1 : SimFile) :
    (pcopyMain P g src dst1).spawned =
      plan P src.size (effGlobals P src.size g).threads := by
  simp [pcopyMain]

theorem pcopyMain_outcome_ok (P : Nat) (g : Globals) (src : SimFile) (dst1 : SimFile)
    (herr : (runChunks src.data g.fsync (plan P src.size (effGlobals P src.size g).threads)
        (truncFile dst1 src.size).data).err = none) :
    (pcopyMain P g src dst1).outcome =
      .success { truncFile dst1 src.size with
        data := (runChunks src.data g.fsync (plan P src.size (effGlobals P src.size g).threads)
          (truncFile dst1 src.size).data).dstData } := by
  simp only [pcopyMain]
  rw [herr]

theorem pcopyMain_srcTrace_r (P : Nat) (g : Globals) (src : SimFile) (dst1 : SimFile) :
    ∀ op ∈ (pcopyMain P g src dst1).srcTrace, op.mode = Mode.r := by
  intro op hop
  simp only [pcopyMain, List.mem_append] at hop
  rcases hop with (hmem | hmem) | hmem
  · rcases (by simpa using hmem : op = FileOp.openReadOnly ∨ op = FileOp.statFile) with rfl | rfl <;> rfl
  · exact runChunks_strace_r src.data g.fsync _ _ op hmem
  · revert hmem
    cases (runChunks src.data g.fsync (plan P src.size (effGlobals P src.size g).threads)
        (truncFile dst1 src.size).data).err with
    | none =>
      intro hmem
      rcases (by simpa using hmem : op = FileOp.closeFile) with rfl
      rfl
    | some e =>
      intro hmem
      simp at hmem

theorem pcopy_zero_some (P : Nat) (g : Globals) (src d : SimFile)
    (hreg : src.isRegular = true) (hsz : src.size = 0) :
    pcopy P g src (some d) =
      { outcome := .success d, globals := g, spawned := [],
        srcTrace := [.openReadOnly, .statFile, .closeFile],
        dstTrace := [.openCreateReadWrite src.perm, .closeFile] } := by
  simp [pcopy, hreg, hsz]

theorem pcopy_main_some (P : Nat) (g : Globals) (src d : SimFile)
    (hreg : src.isRegular = true) (hsz : src.size ≠ 0) :
    pcopy P g src (some d) = pcopyMain P g src d := by
  simp [pcopy, hreg, hsz]

theorem pcopy_srcTrace_r (P : Nat) (g : Globals) (src : SimFile) (dst0 : Option SimFile) :
    ∀ op ∈ (pcopy P g src dst0).srcTrace, op.mode = Mode.r := by
  intro op hop
  by_cases hreg : src.isRegular = false
  · rw [pcopy_notRegular P g src dst0 hreg] at hop
    rcases (by simpa using hop :
        op = FileOp.openReadOnly ∨ op = FileOp.statFile ∨ op = FileOp.closeFile)
      with rfl | rfl | rfl <;> rfl
  · have hreg2 : src.isRegular = true := by
      revert hreg
      cases src.isRegular <;> simp
    by_cases hsz : src.size = 0
    · cases dst0 with
      | none =>
        rw [pcopy_zero_none P g src hreg2 hsz] at hop
        rcases (by simpa using hop :
            op = FileOp.openReadOnly ∨ op = FileOp.statFile ∨ op = FileOp.closeFile)
          with rfl | rfl | rfl <;> rfl
      | some d =>
        rw [pcopy_zero_some P g src d hreg2 hsz] at hop
        rcases (by simpa using hop :
            op = FileOp.openReadOnly ∨ op = FileOp.statFile ∨ op = FileOp.closeFile)
          with rfl | rfl | rfl <;> rfl
    · cases dst0 with
      | none =>
        rw [pcopy_main_none P g src hreg2 hsz] at hop
        exact pcopyMain_srcTrace_r P g src _ op hop
      | some d =>
        rw [pcopy_main_some P g src d hreg2 hsz] at hop
        exact pcopyMain_srcTrace_r P g src d op hop

/-! ### Lemmas about the fcopy loop -/

theorem fcopyExit_state (len : Nat) (st : FcState) : (fcopyExit len st).state = st := by
  rw [fcopyExit]
  split <;> rfl

theorem fcopyExit_success (len : Nat) (st st' : FcState)
    (h : fcopyExit len st = .success st') : st = st' ∧ st.written = len := by
  rw [fcopyExit] at h
  by_cases hw : st.written = len
  · rw [if_pos hw] at h
    exact ⟨by injection h, hw⟩
  · rw [if_neg hw] at h
    exact absurd h (by intro hc; nomatch hc)

theorem fcopyRun_exit (s : Nat → Nat) (e len : Nat) (resps : List CfrResp) (st : FcState)
    (h0 : st.remain = 0) : fcopyRun s e len resps st = fcopyExit len st := by
  cases resps with
  | nil => rw [fcopyRun, if_pos h0]
  | cons r rest => cases r <;> · rw [fcopyRun, if_pos h0]

theorem fcopy_loop_sound (s d0 : Nat → Nat) (e len s0 : Nat) :
    ∀ (resps : List CfrResp) (st st' : FcState),
      st.start + st.remain = e →
      st.written + st.remain = len →
      s0 ≤ st.start →
      (∀ x, s0 ≤ x → x < st.start → st.dstData x = s x) →
      (∀ x, x < s0 → st.dstData x = d0 x) →
      (∀ x, st.start ≤ x → st.dstData x = d0 x) →
      validResps resps st.remain = true →
      fcopyRun s e len resps st = .success st' →
      st'.remain = 0 ∧ st'.written = len ∧ st'.start = e ∧
      (∀ x, s0 ≤ x → x < e → st'.dstData x = s x) ∧
      (∀ x, x < s0 → st'.dstData x = d0 x) ∧
      (∀ x, e ≤ x → st'.dstData x = d0 x) := by
  intro resps
  induction resps with
  | nil =>
    intro st st' h1 h2 h3 h4 h5 h6 hv hrun
    by_cases h0 : st.remain = 0
    · rw [fcopyRun_exit s e len [] st h0] at hrun
      obtain ⟨rfl, hw⟩ := fcopyExit_success len st st' hrun
      refine ⟨h0, hw, by omega, ?_, h5, ?_⟩
      · intro x hx1 hx2
        exact h4 x hx1 (by omega)
      · intro x hx
        exact h6 x (by omega)
    · rw [fcopyRun, if_neg h0] at hrun
      exact absurd hrun (by intro hc; nomatch hc)
  | cons rsp rest ih =>
    intro st st' h1 h2 h3 h4 h5 h6 hv hrun
    by_cases h0 : st.remain = 0
    · rw [fcopyRun_exit s e len (rsp :: rest) st h0] at hrun
      obtain ⟨rfl, hw⟩ := fcopyExit_success len st st' hrun
      refine ⟨h0, hw, by omega, ?_, h5, ?_⟩
      · intro x hx1 hx2
        exact h4 x hx1 (by omega)
      · intro x hx
        exact h6 x (by omega)
    · cases rsp with
      | eintr =>
        rw [fcopyRun, if_neg h0] at hrun
        rw [validResps] at hv
        exact ih { st with strace := st.strace ++ [.copyFileRangeSrc st.start (e - st.start)] }
          st' h1 h2 h3 h4 h5 h6 hv hrun
      | ok n =>
        rw [fcopyRun, if_neg h0] at hrun
        rw [validResps, Bool.and_eq_true, decide_eq_true_eq] at hv
        obtain ⟨hn, hv2⟩ := hv
        refine ih _ st' ?_ ?_ ?_ ?_ ?_ ?_ hv2 hrun
        · simp only []
          omega
        · simp only []
          omega
        · simp only []
          omega
        · intro x hx1 hx2
          simp only [] at hx2 ⊢
          rw [writeRange]
          by_cases hin : st.start ≤ x ∧ x < st.start + n
          · rw [if_pos hin]
          · rw [if_neg hin]
            exact h4 x hx1 (by omega)
        · intro x hx
          simp only []
          rw [writeRange, if_neg (by omega)]
          exact h5 x hx
        · intro x hx
          simp only [] at hx ⊢
          rw [writeRange, if_neg (by omega)]
          exact h6 x (by omega)

theorem fcopy_strace_r (s : Nat → Nat) (e len : Nat) :
    ∀ (resps : List CfrResp) (st : FcState),
      (∀ op ∈ st.strace, op.mode = Mode.r) →
      ∀ op ∈ (fcopyRun s e len resps st).state.strace, op.mode = Mode.r := by
  intro resps
  induction resps with
  | nil =>
    intro st h op hop
    rw [fcopyRun] at hop
    by_cases h0 : st.remain = 0
    · rw [if_pos h0, fcopyExit_state] at hop
      exact h op hop
    · rw [if_neg h0] at hop
      exact h op hop
  | cons rsp rest ih =>
    intro st h op hop
    by_cases h0 : st.remain = 0
    · rw [fcopyRun_exit s e len (rsp :: rest) st h0, fcopyExit_state] at hop
      exact h op hop
    · cases rsp with
      | eintr =>
        rw [fcopyRun, if_neg h0] at hop
        refine ih _ ?_ op hop
        intro op2 hop2
        rcases List.mem_append.1 hop2 with hmem | hmem
        · exact h op2 hmem
        · rcases (by simpa using hmem : op2 = FileOp.copyFileRangeSrc st.start (e - st.start))
            with rfl
          rfl
      | ok n =>
        rw [fcopyRun, if_neg h0] at hop
        refine ih _ ?_ op hop
        intro op2 hop2
        simp only [] at hop2
        rcases List.mem_append.1 hop2 with hmem | hmem
        · exact h op2 hmem
        · rcases (by simpa using hmem : op2 = FileOp.copyFileRangeSrc st.start (e - st.start))
            with rfl
          rfl

/-! ### Round-trip helper -/

/-- Copying a regular source into a fresh destination succeeds and
reproduces size, permissions and bytes, provided the plan is
non-degenerate: either the effective worker count is 1 (including the
small-file case) or the page-aligned base chunk size is positive. -/
theorem pcopy_fresh_roundtrip (P : Nat) (g : Globals) (src : SimFile)
    (hreg : src.isRegular = true) (hW : 1 ≤ g.threads)
    (hdeg : (effGlobals P src.size g).threads = 1
        ∨ 0 < align P (src.size / (effGlobals P src.size g).threads)) :
    (pcopy P g src none).outcome.isSuccess = true
    ∧ (pcopy P g src none).outcome.dstSize? = some src.size
    ∧ (pcopy P g src none).outcome.dstPerm? = some src.perm
    ∧ ∀ i, i < src.size → (pcopy P g src none).outcome.dstByte? i = some (src.data i) := by
  by_cases hsz : src.size = 0
  · rw [pcopy_zero_none P g src hreg hsz]
    refine ⟨rfl, ?_, rfl, ?_⟩
    · rw [hsz]
      rfl
    · intro i hi
      omega
  · rw [pcopy_main_none P g src hreg hsz]
    have hWpos : 1 ≤ (effGlobals P src.size g).threads := effGlobals_pos P src.size g hW
    have hpos := plan_chunk_pos P src.size (effGlobals P src.size g).threads
      (Nat.pos_of_ne_zero hsz) hWpos hdeg
    have herr := runChunks_err_none src.data g.fsync
      (plan P src.size (effGlobals P src.size g).threads)
      (truncFile { isRegular := true, perm := src.perm, size := 0, data := fun _ => 0 }
        src.size).data hpos
    rw [pcopyMain_outcome_ok P g src _ herr]
    refine ⟨rfl, ?_, ?_, ?_⟩
    · simp [RunOutcome.dstSize?, RunOutcome.dstFile?, truncFile]
    · simp [RunOutcome.dstPerm?, RunOutcome.dstFile?, truncFile]
    · intro i hi
      have hcov : ∃ c ∈ plan P src.size (effGlobals P src.size g).threads,
          c.start ≤ i ∧ i < c.stop := by
        obtain ⟨j, hj, hjs, hje⟩ := plan_cover P src.size
          (effGlobals P src.size g).threads i hWpos hi
        exact ⟨planChunk (align P (src.size / (effGlobals P src.size g).threads))
            src.size (effGlobals P src.size g).threads j,
          by
            rw [plan, List.mem_map]
            exact ⟨j, List.mem_range.2 hj, rfl⟩,
          hjs, hje⟩
      have hdata := runChunks_covered src.data g.fsync
        (plan P src.size (effGlobals P src.size g).threads)
        (truncFile { isRegular := true, perm := src.perm, size := 0, data := fun _ => 0 }
          src.size).data i hpos hcov
      simp only [RunOutcome.dstByte?, RunOutcome.dstFile?, Option.map]
      rw [hdata]

/-! ### Claim C1 -/

/-- The regular 1048576-byte source (exactly 256 pages of 4096) used to
exhibit the degenerate worker-count behaviour. -/
def srcMeg : SimFile :=
  { isRegular := true, perm := 420, size := 1048576, data := fun _ => 0 }

/-- Counterexample to C1 as stated: with requested worker count 257 — a
prime count exceeding fileSize/pageSize = 256 — on a 1048576-byte file
(at the small-file threshold, so the worker count is not forced to 1),
the base chunk size floor((1048576/257)/4096)*4096 is 0, the dispatched
chunks include the empty range [0, 0), unix.Mmap of length 0 fails with
EINVAL and mcopy calls log.Fatalln: the run fails instead of producing a
byte-identical destination. -/
theorem c1_roundtrip_counterexample :
    (pcopy 4096 ⟨257, false⟩ srcMeg none).outcome.isSuccess = false
    ∧ Chunk.mk 0 0 ∈ (pcopy 4096 ⟨257, false⟩ srcMeg none).spawned := by
  exact ⟨by decide, by decide⟩

/-- C1 amended: for every regular source file of any size and content
and every requested worker count W ≥ 1 such that the run is
non-degenerate — the effective worker count is 1 (which includes every
file below the 256-page small-file threshold) or the page-aligned base
chunk size is positive (no empty chunk is dispatched) — copying into a
fresh destination succeeds and produces a destination whose size and
bytes are identical to the source and whose permission bits match the
source's. -/
theorem c1_roundtrip_amended (P : Nat) (g : Globals) (src : SimFile)
    (hreg : src.isRegular = true) (hW : 1 ≤ g.threads)
    (hdeg : (effGlobals P src.size g).threads = 1
        ∨ 0 < align P (src.size / (effGlobals P src.size g).threads)) :
    (pcopy P g src none).outcome.isSuccess = true
    ∧ (pcopy P g src none).outcome.dstSize? = some src.size
    ∧ (pcopy P g src none).outcome.dstPerm? = some src.perm
    ∧ ∀ i, i < src.size → (pcopy P g src none).outcome.dstByte? i = some (src.data i) :=
  pcopy_fresh_roundtrip P g src hreg hW hdeg

/-- Witness for c1_roundtrip_amended: 5 bytes, two requested workers
(forced to one by the small-file rule), bytes i+10. -/
theorem c1_roundtrip_witness :
    (pcopy 4096 ⟨2, false⟩ ⟨true, 493, 5, fun i => i + 10⟩ none).outcome.isSuccess = true
    ∧ (pcopy 4096 ⟨2, false⟩ ⟨true, 493, 5, fun i => i + 10⟩ none).outcome.dstSize? = some 5
    ∧ (pcopy 4096 ⟨2, false⟩ ⟨true, 493, 5, fun i => i + 10⟩ none).outcome.dstPerm? = some 493
    ∧ ∀ i, i < 5 →
        (pcopy 4096 ⟨2, false⟩ ⟨true, 493, 5, fun i => i + 10⟩ none).outcome.dstByte? i
          = some (i + 10) :=
  c1_roundtrip_amended 4096 ⟨2, false⟩ ⟨true, 493, 5, fun i => i + 10⟩ rfl (by decide)
    (Or.inl (by decide))

/-! ### Claim C3 -/

/-- The concrete one-million-byte source of the C3 scenario, with
pseudo-random-looking bytes i % 256 and mode 0644. -/
def srcMillion : SimFile :=
  { isRegular := true, perm := 420, size := 1000000, data := fun i => i % 256 }

/-- Counterexample to C3 as stated: 1,000,000 bytes is below the
small-file threshold 256 * 4096 = 1048576, so the run with requested
workers = 4 forces a single worker; the plan is the single chunk
[0, 1000000), not 4 chunks. (Separately, the stated base size 245760 is
not floor(1000000/4/4096)*4096 either: that value is 249856.) -/
theorem c3_scenario_counterexample :
    (pcopy 4096 ⟨4, false⟩ srcMillion none).spawned = [⟨0, 1000000⟩]
    ∧ (pcopy 4096 ⟨4, false⟩ srcMillion none).spawned.length ≠ 4
    ∧ align 4096 (1000000 / 4) ≠ 245760 := by
  exact ⟨by decide, by decide, by decide⟩

/-- C3 amended: for a source of exactly 1,000,000 bytes copied with
requested workers = 4 and page size 4096, the small-file rule (1,000,000
< 256 * 4096) forces a single worker: the plan is the single chunk
[0, 1000000), and the run succeeds with a destination of size 1,000,000
whose bytes equal the source's exactly and whose permission bits match. -/
theorem c3_scenario_amended :
    (pcopy 4096 ⟨4, false⟩ srcMillion none).spawned = [⟨0, 1000000⟩]
    ∧ (pcopy 4096 ⟨4, false⟩ srcMillion none).outcome.isSuccess = true
    ∧ (pcopy 4096 ⟨4, false⟩ srcMillion none).outcome.dstSize? = some 1000000
    ∧ (pcopy 4096 ⟨4, false⟩ srcMillion none).outcome.dstPerm? = some 420
    ∧ ∀ i, i < 1000000 →
        (pcopy 4096 ⟨4, false⟩ srcMillion none).outcome.dstByte? i = some (i % 256) := by
  have h := pcopy_fresh_roundtrip 4096 ⟨4, false⟩ srcMillion rfl (by decide)
    (Or.inl (by decide))
  exact ⟨by decide, h.1, h.2.1, h.2.2.1, h.2.2.2⟩

/-! ### Claim C6 -/

/-- Counterexample to C6 as stated: with page size 4096, file size
1048576 and 257 workers the base chunk size is 0 (1048576 < 257 * 4096),
yet the plan is not the single chunk [0, fileSize): it has 257 chunks
and contains the degenerate chunk [0, 0), which violates start < stop. -/
theorem c6_single_chunk_counterexample :
    align 4096 (1048576 / 257) = 0
    ∧ plan 4096 1048576 257 ≠ [⟨0, 1048576⟩]
    ∧ (plan 4096 1048576 257).length = 257
    ∧ Chunk.mk 0 0 ∈ plan 4096 1048576 257
    ∧ ¬ (Chunk.mk 0 0).start < (Chunk.mk 0 0).stop := by
  exact ⟨by decide, by decide, by decide, by decide, by decide⟩

/-- C6 amended: for a non-empty file, if the effective worker count is 1
the plan is the single chunk [0, fileSize); if the base chunk size
floor((fileSize/workers)/pageSize)*pageSize is 0 the plan consists of
workers - 1 empty chunks [0, 0) followed by one final chunk
[0, fileSize); and in general every planned chunk satisfies
start ≤ end, with start < end only guaranteed in the non-degenerate
cases. -/
theorem c6_single_chunk_amended (P S W : Nat) (hS : 0 < S) (hW : 1 ≤ W) :
    (W = 1 → plan P S W = [⟨0, S⟩])
    ∧ (align P (S / W) = 0 →
        plan P S W = List.replicate (W - 1) ⟨0, 0⟩ ++ [⟨0, S⟩])
    ∧ (∀ c ∈ plan P S W, c.start ≤ c.stop) := by
  refine ⟨?_, ?_, ?_⟩
  · intro h1
    subst h1
    simp [plan, planChunk, List.range_succ, List.range_zero]
  · intro h0
    apply List.ext_getElem
    · simp only [plan_length, List.length_append, List.length_replicate, List.length_singleton]
      omega
    · intro i hi hi2
      rw [plan_length] at hi
      rw [plan_getElem P S W i (by rw [plan_length]; exact hi)]
      by_cases hlast : i = W - 1
      · subst hlast
        rw [List.getElem_append_right (by simp only [List.length_replicate]; omega)]
        simp only [planChunk, h0, List.length_replicate, Nat.sub_self,
          List.getElem_singleton, Nat.mul_zero]
        simp
      · rw [List.getElem_append_left (by simp only [List.length_replicate]; omega)]
        simp only [planChunk, h0, if_neg hlast, List.getElem_replicate, Nat.mul_zero]
  · intro c hm
    rw [plan, List.mem_map] at hm
    obtain ⟨i, hi, rfl⟩ := hm
    rw [List.mem_range] at hi
    by_cases hlast : i = W - 1
    · subst hlast
      simp only [planChunk, if_pos rfl]
      exact Nat.le_trans (Nat.mul_le_mul_right _ (by omega)) (mul_align_le P S W)
    · simp only [planChunk, if_neg hlast]
      exact Nat.mul_le_mul_right _ (by omega)

/-- Witness for c6_single_chunk_amended at both a one-worker plan and a
degenerate 257-worker plan. -/
theorem c6_single_chunk_witness :
    plan 4096 1000 1 = [⟨0, 1000⟩]
    ∧ plan 4096 1048576 257 = List.replicate 256 ⟨0, 0⟩ ++ [⟨0, 1048576⟩] :=
  ⟨(c6_single_chunk_amended 4096 1000 1 (by decide) (by decide)).1 rfl,
   (c6_single_chunk_amended 4096 1048576 257 (by decide) (by decide)).2.1 (by decide)⟩

/-! ### Claim C2 -/

/-- C2: for every positive page size P, file size S > 0 and effective
worker count W ≥ 1, the planned chunk sequence has exactly W chunks, its
first chunk starts at 0, its last chunk ends at S, it is contiguous
(each chunk's end equals the next chunk's start), every chunk satisfies
start ≤ stop, distinct chunks do not overlap (an earlier chunk ends no
later than a later chunk starts), every chunk's start is a multiple of P
and every chunk end except the final one is a multiple of P. -/
theorem c2_plan_partition (P S W : Nat) (hP : 0 < P) (hS : 0 < S) (hW : 1 ≤ W) :
    (plan P S W).length = W
    ∧ (∀ i (h : i < (plan P S W).length), i = 0 → ((plan P S W).get ⟨i, h⟩).start = 0)
    ∧ (∀ i (h : i < (plan P S W).length), i = (plan P S W).length - 1 →
        ((plan P S W).get ⟨i, h⟩).stop = S)
    ∧ List.Chain' (fun a b => a.stop = b.start) (plan P S W)
    ∧ (∀ c ∈ plan P S W, c.start ≤ c.stop)
    ∧ (∀ i j (hi : i < (plan P S W).length) (hj : j < (plan P S W).length), i < j →
        ((plan P S W).get ⟨i, hi⟩).stop ≤ ((plan P S W).get ⟨j, hj⟩).start)
    ∧ (∀ i (h : i < (plan P S W).length), P ∣ ((plan P S W).get ⟨i, h⟩).start)
    ∧ (∀ i (h : i < (plan P S W).length), i + 1 < (plan P S W).length →
        P ∣ ((plan P S W).get ⟨i, h⟩).stop) := by
  have hlen : (plan P S W).length = W := plan_length P S W
  have hget : ∀ i (h : i < (plan P S W).length),
      (plan P S W).get ⟨i, h⟩ = planChunk (align P (S / W)) S W i := by
    intro i h
    rw [List.get_eq_getElem, plan_getElem]
  refine ⟨hlen, ?_, ?_, ?_, ?_, ?_, ?_, ?_⟩
  · intro i h hi
    subst hi
    rw [hget]
    simp [planChunk]
  · intro i h hi
    rw [hget]
    rw [hlen] at hi
    simp [planChunk, hi]
  · rw [List.chain'_iff_get]
    intro i hi
    rw [hget, hget]
    rw [hlen] at hi
    have hne : i ≠ W - 1 := by omega
    simp only [planChunk, if_neg hne]
  · intro c hm
    rw [plan, List.mem_map] at hm
    obtain ⟨i, hi, rfl⟩ := hm
    rw [List.mem_range] at hi
    by_cases hlast : i = W - 1
    · subst hlast
      simp only [planChunk, if_pos rfl]
      exact Nat.le_trans (Nat.mul_le_mul_right _ (by omega)) (mul_align_le P S W)
    · simp only [planChunk, if_neg hlast]
      exact Nat.mul_le_mul_right _ (by omega)
  · intro i j hi hj hij
    rw [hget, hget]
    rw [hlen] at hi hj
    have hne : i ≠ W - 1 := by omega
    simp only [planChunk, if_neg hne]
    exact Nat.mul_le_mul_right _ (by omega)
  · intro i h
    rw [hget]
    simp only [planChunk]
    exact (dvd_align P (S / W)).mul_left i
  · intro i h hi
    rw [hget]
    rw [hlen] at hi
    have hne : i ≠ W - 1 := by omega
    simp only [planChunk, if_neg hne]
    exact (dvd_align P (S / W)).mul_left (i + 1)

/-- Witness for c2_plan_partition at page size 4096, a two-page file and
two workers. -/
theorem c2_plan_partition_witness :
    (plan 4096 8192 2).length = 2
    ∧ List.Chain' (fun a b => a.stop = b.start) (plan 4096 8192 2)
    ∧ (∀ c ∈ plan 4096 8192 2, c.start ≤ c.stop) :=
  ⟨(c2_plan_partition 4096 8192 2 (by decide) (by decide) (by decide)).1,
   (c2_plan_partition 4096 8192 2 (by decide) (by decide) (by decide)).2.2.2.1,
   (c2_plan_partition 4096 8192 2 (by decide) (by decide) (by decide)).2.2.2.2.1⟩

/-! ### Claim C7 -/

/-- C7: for a regular source of size 0, the run creates the destination
fresh, succeeds, dispatches no chunks to workers, and the destination
file has length 0 and the source's permission bits. -/
theorem c7_empty_source (P : Nat) (g : Globals) (src : SimFile)
    (hreg : src.isRegular = true) (hsz : src.size = 0) :
    (pcopy P g src none).outcome.isSuccess = true
    ∧ (pcopy P g src none).outcome.dstSize? = some 0
    ∧ (pcopy P g src none).outcome.dstPerm? = some src.perm
    ∧ (pcopy P g src none).spawned = [] := by
  rw [pcopy_zero_none P g src hreg hsz]
  exact ⟨rfl, rfl, rfl, rfl⟩

/-- Witness for c7_empty_source on a concrete empty 0644 source. -/
theorem c7_empty_source_witness :
    (pcopy 4096 ⟨8, false⟩ ⟨true, 420, 0, fun _ => 0⟩ none).outcome.isSuccess = true
    ∧ (pcopy 4096 ⟨8, false⟩ ⟨true, 420, 0, fun _ => 0⟩ none).outcome.dstSize? = some 0
    ∧ (pcopy 4096 ⟨8, false⟩ ⟨true, 420, 0, fun _ => 0⟩ none).outcome.dstPerm? = some 420
    ∧ (pcopy 4096 ⟨8, false⟩ ⟨true, 420, 0, fun _ => 0⟩ none).spawned = [] :=
  c7_empty_source 4096 ⟨8, false⟩ ⟨true, 420, 0, fun _ => 0⟩ rfl rfl

/-! ### Claim C9 -/

/-- C9: if the source is not a regular file (a directory, device or
pipe), the run fails with the not-a-regular-file error and the
destination is untouched: whatever destination state existed before the
run is returned unchanged, no chunk is dispatched, and the run performs
no operation at all on the destination. -/
theorem c9_not_regular (P : Nat) (g : Globals) (src : SimFile) (dst0 : Option SimFile)
    (hreg : src.isRegular = false) :
    (pcopy P g src dst0).outcome = .failure .notRegular dst0
    ∧ (pcopy P g src dst0).outcome.dstFile? = dst0
    ∧ (pcopy P g src dst0).spawned = []
    ∧ (pcopy P g src dst0).dstTrace = [] := by
  rw [pcopy_notRegular P g src dst0 hreg]
  exact ⟨rfl, rfl, rfl, rfl⟩

/-- Witness for c9_not_regular: a directory-like source, with a
pre-existing destination that stays exactly as it was. -/
theorem c9_not_regular_witness :
    (pcopy 4096 ⟨8, false⟩ ⟨false, 420, 7, fun _ => 3⟩
        (some ⟨true, 400, 2, fun _ => 9⟩)).outcome
      = .failure .notRegular (some ⟨true, 400, 2, fun _ => 9⟩)
    ∧ (pcopy 4096 ⟨8, false⟩ ⟨false, 420, 7, fun _ => 3⟩
        (some ⟨true, 400, 2, fun _ => 9⟩)).dstTrace = [] :=
  ⟨(c9_not_regular 4096 ⟨8, false⟩ ⟨false, 420, 7, fun _ => 3⟩
      (some ⟨true, 400, 2, fun _ => 9⟩) rfl).1,
   (c9_not_regular 4096 ⟨8, false⟩ ⟨false, 420, 7, fun _ => 3⟩
      (some ⟨true, 400, 2, fun _ => 9⟩) rfl).2.2.2⟩

/-! ### Claim C8 -/

/-- Counterexample to C8 as stated: the run configuration is shared
mutable package state and pcopy mutates it after the run starts —
copying a regular 1-byte file with the global worker count 4 leaves the
global set to 1. -/
theorem c8_config_counterexample :
    (pcopy 4096 ⟨4, false⟩ ⟨true, 420, 1, fun _ => 7⟩ none).globals ≠ ⟨4, false⟩
    ∧ (pcopy 4096 ⟨4, false⟩ ⟨true, 420, 1, fun _ => 7⟩ none).globals = ⟨1, false⟩ := by
  exact ⟨by decide, by decide⟩

/-- C8 amended: the worker count and sync flag are package-level mutable
globals, read inside pcopy and the chunk tasks; pcopy overwrites the
global worker count with 1 once a regular, non-empty source smaller than
256 pages has been validated, and leaves the globals unchanged
otherwise. -/
theorem c8_config_amended (P : Nat) (g : Globals) (src : SimFile) (dst0 : Option SimFile) :
    (pcopy P g src dst0).globals =
      if src.isRegular = true ∧ src.size ≠ 0 ∧ src.size < 256 * P
      then { g with threads := 1 } else g := by
  by_cases hreg : src.isRegular = false
  · rw [pcopy_notRegular P g src dst0 hreg, if_neg (by simp [hreg])]
  · have hreg2 : src.isRegular = true := by
      revert hreg
      cases src.isRegular <;> simp
    by_cases hsz : src.size = 0
    · cases dst0 with
      | none =>
        rw [pcopy_zero_none P g src hreg2 hsz, if_neg (by simp [hsz])]
      | some d =>
        rw [pcopy_zero_some P g src d hreg2 hsz, if_neg (by simp [hsz])]
    · have hmain : (pcopy P g src dst0).globals = effGlobals P src.size g := by
        cases dst0 with
        | none =>
          rw [pcopy_main_none P g src hreg2 hsz]
          exact pcopyMain_globals P g src _
        | some d =>
          rw [pcopy_main_some P g src d hreg2 hsz]
          exact pcopyMain_globals P g src d
      rw [hmain, effGlobals]
      by_cases hsmall : src.size < 256 * P
      · rw [if_pos hsmall, if_pos ⟨hreg2, hsz, hsmall⟩]
      · rw [if_neg hsmall, if_neg (by intro h; exact hsmall h.2.2)]

/-! ### Claim C5 -/

/-- Counterexample to C5 as stated: a memory access fault during the
mapped copy of the chunk [0, 4096) does not yield a reportable per-chunk
fault error — the recover handler passes the caught panic to
log.Fatalln, which terminates the whole process. -/
theorem c5_fault_counterexample :
    mcopy true (fun _ => 0) (fun _ => 0) ⟨0, 4096⟩ = McopyOutcome.fatalExit
    ∧ ∀ c : Chunk,
        mcopy true (fun _ => 0) (fun _ => 0) ⟨0, 4096⟩ ≠ McopyOutcome.chunkFaultError c := by
  constructor
  · rfl
  · intro c h
    nomatch h

/-- C5 amended: the fault guard (debug.SetPanicOnFault plus the deferred
recover) does catch an out-of-range or device-fault access during the
copy — the process is never killed by the raw signal — but the recover
handler then calls log.Fatalln, so the fault terminates the whole
process with a logged fatal error; it is never converted into a
reportable per-chunk fault outcome. -/
theorem c5_fault_amended (srcData dstData : Nat → Nat) (c : Chunk) :
    mcopy true srcData dstData c = McopyOutcome.fatalExit
    ∧ mcopy true srcData dstData c ≠ McopyOutcome.signalCrash
    ∧ ∀ c2 : Chunk, mcopy true srcData dstData c ≠ McopyOutcome.chunkFaultError c2 := by
  have h : mcopy true srcData dstData c = McopyOutcome.fatalExit := by
    rw [mcopy]
    split
    · rfl
    · rfl
  refine ⟨h, ?_, ?_⟩
  · rw [h]
    intro hc
    nomatch hc
  · intro c2
    rw [h]
    intro hc
    nomatch hc

/-! ### Claim C4 -/

/-- C4: the fcopy loop for chunk [s, e): a response list in which every
transfer is at most the remaining length drives the loop so that (a) an
EINTR result is retried with the copy state unchanged (only the syscall
is recorded), and (b) whenever the loop returns success it has
transferred exactly e - s bytes — the written counter equals e - s, the
shared offset ends at e, the remaining count is 0, the destination holds
the source bytes on exactly [s, e), and bytes outside the chunk are
untouched: each partial transfer resumed from the advanced offset rather
than restarting. -/
theorem c4_kernel_range_copy (s d0 : Nat → Nat) (cstart cstop : Nat) (resps : List CfrResp)
    (hle : cstart ≤ cstop)
    (hvalid : validResps resps (cstop - cstart) = true) :
    (∀ (rest : List CfrResp) (st : FcState), st.remain ≠ 0 →
        fcopyRun s cstop (cstop - cstart) (.eintr :: rest) st
          = fcopyRun s cstop (cstop - cstart) rest
              { st with strace := st.strace ++ [.copyFileRangeSrc st.start (cstop - st.start)] })
    ∧ (∀ st' : FcState,
        fcopyRun s cstop (cstop - cstart) resps ⟨cstart, 0, cstop - cstart, d0, []⟩
          = .success st' →
        st'.written = cstop - cstart ∧ st'.start = cstop ∧ st'.remain = 0
        ∧ (∀ x, cstart ≤ x → x < cstop → st'.dstData x = s x)
        ∧ (∀ x, x < cstart → st'.dstData x = d0 x)
        ∧ (∀ x, cstop ≤ x → st'.dstData x = d0 x)) := by
  constructor
  · intro rest st h0
    rw [fcopyRun, if_neg h0]
  · intro st' hrun
    have h := fcopy_loop_sound s d0 cstop (cstop - cstart) cstart resps
      ⟨cstart, 0, cstop - cstart, d0, []⟩ st'
      (by simp only []; omega) (by simp only []; omega) (by simp only []; omega)
      (by intro x hx1 hx2; simp only [] at hx1 hx2; omega)
      (by intro x hx; rfl) (by intro x hx; rfl) hvalid hrun
    exact ⟨h.2.1, h.2.2.1, h.1, h.2.2.2.1, h.2.2.2.2.1, h.2.2.2.2.2⟩

/-- Witness for c4_kernel_range_copy: chunk [0, 5), an EINTR retry
followed by a partial transfer of 2 and a resumed transfer of 3. -/
theorem c4_kernel_range_copy_witness :
    ∃ st' : FcState,
      fcopyRun (fun i => i + 7) 5 5 [.eintr, .ok 2, .ok 3] ⟨0, 0, 5, fun _ => 99, []⟩
        = .success st'
      ∧ st'.written = 5 ∧ st'.start = 5 ∧ st'.remain = 0
      ∧ st'.dstData 3 = 10 ∧ st'.dstData 6 = 99 := by
  have h := (c4_kernel_range_copy (fun i => i + 7) (fun _ => 99) 0 5
    [.eintr, .ok 2, .ok 3] (by decide) (by decide)).2
  refine ⟨(fcopyRun (fun i => i + 7) 5 5 [.eintr, .ok 2, .ok 3]
    ⟨0, 0, 5, fun _ => 99, []⟩).state, ?_, ?_⟩
  · rfl
  · have h2 := h _ rfl
    exact ⟨h2.1, h2.2.1, h2.2.2.1, (h2.2.2.2.1 3 (by omega) (by omega)).trans rfl,
      h2.2.2.2.2.2 6 (by omega)⟩

/-! ### Claim C10 -/

/-- C10: the run only ever touches the source through read-only
operations — pcopy opens it O_RDONLY, stats it, maps chunks PROT_READ,
madvises and reads through the mapping and unmaps; the fcopy loop only
issues source-side copy_file_range reads. Consequently, under every
interpretation of the write-capable operations, folding a run's source
operation trace over any source file state leaves it unchanged, on every
outcome. -/
theorem c10_source_unchanged :
    (∀ (P : Nat) (g : Globals) (src : SimFile) (dst0 : Option SimFile),
        ∀ op ∈ (pcopy P g src dst0).srcTrace, op.mode = Mode.r)
    ∧ (∀ (w : FileOp → SimFile → SimFile) (f : SimFile) (P : Nat) (g : Globals)
        (src : SimFile) (dst0 : Option SimFile),
        List.foldl (applyOp w) f (pcopy P g src dst0).srcTrace = f)
    ∧ (∀ (s : Nat → Nat) (e len s0 w0 r0 : Nat) (d0 : Nat → Nat) (resps : List CfrResp),
        ∀ op ∈ (fcopyRun s e len resps ⟨s0, w0, r0, d0, []⟩).state.strace,
          op.mode = Mode.r)
    ∧ (∀ (w : FileOp → SimFile → SimFile) (f : SimFile) (s : Nat → Nat)
        (e len s0 w0 r0 : Nat) (d0 : Nat → Nat) (resps : List CfrResp),
        List.foldl (applyOp w) f
          (fcopyRun s e len resps ⟨s0, w0, r0, d0, []⟩).state.strace = f) := by
  refine ⟨pcopy_srcTrace_r, ?_, ?_, ?_⟩
  · intro w f P g src dst0
    exact foldl_applyOp_r w _ f (pcopy_srcTrace_r P g src dst0)
  · intro s e len s0 w0 r0 d0 resps
    exact fcopy_strace_r s e len resps ⟨s0, w0, r0, d0, []⟩
      (by intro op hop; simp at hop)
  · intro w f s e len s0 w0 r0 d0 resps
    exact foldl_applyOp_r w _ f
      (fcopy_strace_r s e len resps ⟨s0, w0, r0, d0, []⟩
        (by intro op hop; simp at hop))

/-- Witness for c10_source_unchanged: the trace of a concrete successful
run contains the O_RDONLY open, and folding that same trace over a
source state with an arbitrary writer interpretation returns it
unchanged. -/
theorem c10_source_unchanged_witness :
    FileOp.mode .openReadOnly = Mode.r
    ∧ List.foldl (applyOp fun _ f => { f with perm := 0 })
        ⟨true, 493, 5, fun i => i + 10⟩
        (pcopy 4096 ⟨2, false⟩ ⟨true, 493, 5, fun i => i + 10⟩ none).srcTrace
      = ⟨true, 493, 5, fun i => i + 10⟩ :=
  ⟨c10_source_unchanged.1 4096 ⟨2, false⟩ ⟨true, 493, 5, fun i => i + 10⟩ none
      .openReadOnly (by decide),
   c10_source_unchanged.2.1 (fun _ f => { f with perm := 0 })
      ⟨true, 493, 5, fun i => i + 10⟩ 4096 ⟨2, false⟩ ⟨true, 493, 5, fun i => i + 10⟩ none⟩

end Pcp
